import Mathlib

/-
Verification of the transaction-aggregation and savings-prediction pipeline
of the personal-finance-savings-predictor repository.

Shallow embedding conventions:
  - Monetary amounts are modelled as rationals (the spec declares all
    monetary values decimal).
  - Calendar dates are modelled as integers (day index); the source
    formats a Date as the string YYYY-MM-DD, an injective image of the
    day index, and only ever compares such strings for equality.
  - JavaScript objects used as string-keyed accumulators are modelled as
    association lists in key-insertion order.
-/

namespace Fortuna

/-- A transaction as consumed by the frontend: category, amount,
calendar date (day index) and free-text description. -/
structure Transaction where
  category : String
  amount : ℚ
  date : ℤ
  description : String
deriving Repr, DecidableEq

/-- One step of the reduce in processTransactionData
(Dashboard.js lines 125-132, identical in the part_002 variant):
if the key is absent (or its value falsy, i.e. 0) it is first set to 0,
then the amount is added.  Setting an existing key keeps the object's
key order, so the falsy re-set is equivalent to adding to the stored 0. -/
def addToCategory (acc : List (String × ℚ)) (cat : String) (amt : ℚ) :
    List (String × ℚ) :=
  if acc.any (fun p => p.1 = cat) then
    acc.map (fun p => if p.1 = cat then (p.1, p.2 + amt) else p)
  else
    acc ++ [(cat, amt)]

/-- The byCategory accumulator of processTransactionData: reduce over the
transaction list starting from the empty object. -/
def byCategory (txs : List Transaction) : List (String × ℚ) :=
  txs.foldl (fun acc t => addToCategory acc t.category t.amount) []

/-- Sum of the values of a category mapping (Object.values followed by a
sum; used to compare against the total of all transaction amounts). -/
def sumValues (m : List (String × ℚ)) : ℚ :=
  (m.map (fun p => p.2)).sum

/-- The keys of a category mapping (Object.keys). -/
def keysOf (m : List (String × ℚ)) : List String :=
  m.map (fun p => p.1)

/-- Total stored under one key of a category mapping; summing over all
entries with that key agrees with object lookup because keys are unique. -/
def lookupTotal (m : List (String × ℚ)) (c : String) : ℚ :=
  (m.map (fun p => if p.1 = c then p.2 else 0)).sum

/-- Sum of the amounts of a transaction list. -/
def sumAmounts (txs : List Transaction) : ℚ :=
  (txs.map (fun t => t.amount)).sum

/-- The last7Days array of processTransactionData (Dashboard.js lines
144-149): the dates today, today-1, ..., today-6, reversed into
chronological order. -/
def last7Days (today : ℤ) : List ℤ :=
  ((List.range 7).map (fun i => today - (i : ℤ))).reverse

/-- Day total for one date: filter the transactions falling on that date
and sum their amounts (Dashboard.js lines 152-154). -/
def dayTotal (txs : List Transaction) (d : ℤ) : ℚ :=
  ((txs.filter (fun t => t.date = d)).map (fun t => t.amount)).sum

/-- The locally computed recentTrends list (Dashboard.js lines 151-157):
one (date, day total) pair per day of the trailing-7-day window. -/
def recentTrends (today : ℤ) (txs : List Transaction) : List (ℤ × ℚ) :=
  (last7Days today).map (fun d => (d, dayTotal txs d))

/-- The shape of the spending-trends API response consumed by
processTransactionData when present. -/
structure TrendsData where
  daily_spending : List (ℤ × ℚ)

/-- processTransactionData of Dashboard.js (lines 116-161): returns none
on an empty (or missing) transaction list - the early return at lines
117-120, which leaves the previously rendered summary untouched -
otherwise the byCategory mapping paired with either the API-provided
daily_spending list or the locally computed 7-day trend. -/
def processTransactionData (today : ℤ) (txs : List Transaction)
    (trendsData : Option TrendsData) :
    Option (List (String × ℚ) × List (ℤ × ℚ)) :=
  if txs.isEmpty then none
  else
    some (byCategory txs,
      match trendsData with
      | some td => td.daily_spending
      | none => recentTrends today txs)

/-- processTransactionData of the part_002 Dashboard variant (lines
476-504): no empty-list early return and no API-trend branch; it always
produces the byCategory mapping and the locally computed 7-day trend. -/
def processTransactionDataV0 (today : ℤ) (txs : List Transaction) :
    List (String × ℚ) × List (ℤ × ℚ) :=
  (byCategory txs, recentTrends today txs)

/-- The summaryData React state updated by processTransactionData. -/
structure SummaryData where
  byCategory : List (String × ℚ)
  recentTrends : List (ℤ × ℚ)
deriving Repr, DecidableEq

/-- The state update performed by one call of processTransactionData:
setSummaryData on success, previous state kept on the empty-input early
return. -/
def dashboardStep (today : ℤ) (txs : List Transaction)
    (trendsData : Option TrendsData) (s : SummaryData) : SummaryData :=
  match processTransactionData today txs trendsData with
  | none => s
  | some (bc, tr) => ⟨bc, tr⟩

/-- Per-transaction contribution of a list to one category: the sum of
the amounts of its transactions carrying that category. -/
def categoryContribution (txs : List Transaction) (c : String) : ℚ :=
  (txs.map (fun t => if t.category = c then t.amount else 0)).sum

/-- Updating an existing key of the accumulator keeps the key list. -/
lemma keysOf_update (acc : List (String × ℚ)) (c : String) (a : ℚ) :
    keysOf (acc.map (fun p => if p.1 = c then (p.1, p.2 + a) else p)) =
      keysOf acc := by
  unfold keysOf
  rw [List.map_map]
  refine List.map_congr_left ?_
  intro p _
  by_cases h : p.1 = c <;> simp [h]

/-- Membership in the keys after one accumulator step. -/
lemma mem_keysOf_addToCategory (acc : List (String × ℚ)) (c x : String)
    (a : ℚ) :
    x ∈ keysOf (addToCategory acc c a) ↔ x ∈ keysOf acc ∨ x = c := by
  unfold addToCategory
  split
  · next h =>
    rw [keysOf_update]
    have hc : c ∈ keysOf acc := by
      rcases List.any_eq_true.mp h with ⟨p, hp, hpc⟩
      have : p.1 = c := by simpa using hpc
      exact this ▸ List.mem_map_of_mem _ hp
    constructor
    · exact Or.inl
    · rintro (hx | rfl)
      · exact hx
      · exact hc
  · simp [keysOf]

/-- One accumulator step preserves distinctness of the keys. -/
lemma nodup_keysOf_addToCategory (acc : List (String × ℚ)) (c : String)
    (a : ℚ) (h : (keysOf acc).Nodup) :
    (keysOf (addToCategory acc c a)).Nodup := by
  unfold addToCategory
  split
  · next =>
    rwa [keysOf_update]
  · next hc =>
    have hnc : c ∉ keysOf acc := by
      intro hmem
      rcases List.mem_map.mp hmem with ⟨p, hp, hpc⟩
      exact hc (List.any_eq_true.mpr ⟨p, hp, by simpa using hpc⟩)
    have hk : keysOf (acc ++ [(c, a)]) = keysOf acc ++ [c] := by
      simp [keysOf]
    rw [hk]
    refine List.Nodup.append h (List.nodup_singleton c) ?_
    intro x hx hxc
    have : x = c := by simpa using hxc
    exact hnc (this ▸ hx)

/-- Updating the value at a key that occurs exactly once adds the amount
to the value sum. -/
lemma sumValues_update (acc : List (String × ℚ)) (c : String) (a : ℚ)
    (h : (keysOf acc).Nodup) (hc : c ∈ keysOf acc) :
    sumValues (acc.map (fun p => if p.1 = c then (p.1, p.2 + a) else p)) =
      sumValues acc + a := by
  induction acc with
  | nil => exact absurd hc (by simp [keysOf])
  | cons p rest ih =>
    have hnd : (p.1 :: keysOf rest).Nodup := h
    have h1 : p.1 ∉ keysOf rest := (List.nodup_cons.mp hnd).1
    have h2 : (keysOf rest).Nodup := (List.nodup_cons.mp hnd).2
    have hcc : c = p.1 ∨ c ∈ keysOf rest := List.mem_cons.mp hc
    by_cases hp : p.1 = c
    · have hrest : c ∉ keysOf rest := hp ▸ h1
      have hmap : rest.map (fun q => if q.1 = c then (q.1, q.2 + a) else q)
          = rest := by
        have hid : rest.map (fun q => if q.1 = c then (q.1, q.2 + a) else q)
            = rest.map id := by
          refine List.map_congr_left ?_
          intro q hq
          have hqc : q.1 ≠ c := fun hqc =>
            hrest (hqc ▸ List.mem_map_of_mem _ hq)
          simp [hqc]
        simpa using hid
      simp [sumValues, hmap, hp]
      ring
    · have hc' : c ∈ keysOf rest := by
        rcases hcc with h1' | h2'
        · exact absurd h1'.symm hp
        · exact h2'
      have hrec := ih h2 hc'
      simp only [sumValues] at hrec ⊢
      simp only [List.map_cons, if_neg hp, List.sum_cons, hrec]
      ring

/-- One accumulator step adds the amount to the value sum. -/
lemma sumValues_addToCategory (acc : List (String × ℚ)) (c : String)
    (a : ℚ) (h : (keysOf acc).Nodup) :
    sumValues (addToCategory acc c a) = sumValues acc + a := by
  unfold addToCategory
  split
  · next hany =>
    have hc : c ∈ keysOf acc := by
      rcases List.any_eq_true.mp hany with ⟨p, hp, hpc⟩
      have : p.1 = c := by simpa using hpc
      exact this ▸ List.mem_map_of_mem _ hp
    exact sumValues_update acc c a h hc
  · simp [sumValues]

/-- Folding the accumulator over a transaction list adds the total
amount to the value sum. -/
lemma sumValues_fold (txs : List Transaction) :
    ∀ acc, (keysOf acc).Nodup →
      sumValues
        (txs.foldl (fun acc t => addToCategory acc t.category t.amount) acc)
        = sumValues acc + sumAmounts txs := by
  induction txs with
  | nil => intro acc _; simp [sumAmounts]
  | cons t rest ih =>
    intro acc h
    rw [List.foldl_cons,
      ih _ (nodup_keysOf_addToCategory acc t.category t.amount h),
      sumValues_addToCategory acc t.category t.amount h]
    simp [sumAmounts]
    ring

/-- The keys produced by the fold are the starting keys together with
the categories occurring in the list. -/
lemma mem_keysOf_fold (txs : List Transaction) :
    ∀ acc x,
      x ∈ keysOf
        (txs.foldl (fun acc t => addToCategory acc t.category t.amount) acc)
        ↔ x ∈ keysOf acc ∨ ∃ t ∈ txs, t.category = x := by
  induction txs with
  | nil => intro acc x; simp
  | cons t rest ih =>
    intro acc x
    rw [List.foldl_cons, ih, mem_keysOf_addToCategory]
    constructor
    · rintro ((hx | rfl) | ⟨u, hu, hux⟩)
      · exact Or.inl hx
      · exact Or.inr ⟨t, List.mem_cons_self t rest, rfl⟩
      · exact Or.inr ⟨u, List.mem_cons_of_mem t hu, hux⟩
    · rintro (hx | ⟨u, hu, hux⟩)
      · exact Or.inl (Or.inl hx)
      · rcases List.mem_cons.mp hu with rfl | hu'
        · exact Or.inl (Or.inr hux.symm)
        · exact Or.inr ⟨u, hu', hux⟩

/-- Updating the value at a key that occurs exactly once adds the amount
to the total looked up at that key and leaves other keys unchanged. -/
lemma lookupTotal_update (acc : List (String × ℚ)) (c x : String) (a : ℚ)
    (h : (keysOf acc).Nodup) (hc : c ∈ keysOf acc) :
    lookupTotal (acc.map (fun p => if p.1 = c then (p.1, p.2 + a) else p)) x
      = lookupTotal acc x + if c = x then a else 0 := by
  induction acc with
  | nil => exact absurd hc (by simp [keysOf])
  | cons p rest ih =>
    have hnd : (p.1 :: keysOf rest).Nodup := h
    have h1 : p.1 ∉ keysOf rest := (List.nodup_cons.mp hnd).1
    have h2 : (keysOf rest).Nodup := (List.nodup_cons.mp hnd).2
    have hcc : c = p.1 ∨ c ∈ keysOf rest := List.mem_cons.mp hc
    by_cases hp : p.1 = c
    · have hrest : c ∉ keysOf rest := hp ▸ h1
      have hmap : rest.map (fun q => if q.1 = c then (q.1, q.2 + a) else q)
          = rest := by
        have hid : rest.map (fun q => if q.1 = c then (q.1, q.2 + a) else q)
            = rest.map id := by
          refine List.map_congr_left ?_
          intro q hq
          have hqc : q.1 ≠ c := fun hqc =>
            hrest (hqc ▸ List.mem_map_of_mem _ hq)
          simp [hqc]
        simpa using hid
      by_cases hx : c = x
      · show lookupTotal
            ((p :: rest).map (fun q => if q.1 = c then (q.1, q.2 + a) else q))
            x = _
        rw [List.map_cons, hmap]
        simp [lookupTotal, hp, hx]
        ring
      · have hpx : p.1 ≠ x := fun hpx => hx (hp ▸ hpx)
        show lookupTotal
            ((p :: rest).map (fun q => if q.1 = c then (q.1, q.2 + a) else q))
            x = _
        rw [List.map_cons, hmap]
        simp [lookupTotal, hp, hx, hpx]
    · have hc' : c ∈ keysOf rest := by
        rcases hcc with h1' | h2'
        · exact absurd h1'.symm hp
        · exact h2'
      have hrec := ih h2 hc'
      simp only [lookupTotal] at hrec ⊢
      simp only [List.map_cons, if_neg hp, List.sum_cons, hrec]
      ring

/-- One accumulator step adds the amount to the total looked up at its
category and leaves other categories unchanged. -/
lemma lookupTotal_addToCategory (acc : List (String × ℚ)) (c x : String)
    (a : ℚ) (h : (keysOf acc).Nodup) :
    lookupTotal (addToCategory acc c a) x
      = lookupTotal acc x + if c = x then a else 0 := by
  unfold addToCategory
  split
  · next hany =>
    have hc : c ∈ keysOf acc := by
      rcases List.any_eq_true.mp hany with ⟨p, hp, hpc⟩
      have : p.1 = c := by simpa using hpc
      exact this ▸ List.mem_map_of_mem _ hp
    exact lookupTotal_update acc c x a h hc
  · simp [lookupTotal]

/-- Folding the accumulator over a transaction list adds each
transaction's contribution to the total of its category. -/
lemma lookupTotal_fold (txs : List Transaction) :
    ∀ acc, (keysOf acc).Nodup → ∀ x,
      lookupTotal
        (txs.foldl (fun acc t => addToCategory acc t.category t.amount) acc)
        x
        = lookupTotal acc x + categoryContribution txs x := by
  induction txs with
  | nil => intro acc _ x; simp [categoryContribution]
  | cons t rest ih =>
    intro acc h x
    rw [List.foldl_cons,
      ih _ (nodup_keysOf_addToCategory acc t.category t.amount h) x,
      lookupTotal_addToCategory acc t.category x t.amount h]
    simp [categoryContribution]
    ring

/-- The byCategory mapping starts from the empty object, so its keys
are distinct. -/
lemma nodup_keysOf_byCategory (txs : List Transaction) :
    (keysOf (byCategory txs)).Nodup := by
  unfold byCategory
  have h : ∀ (l : List Transaction) (acc : List (String × ℚ)),
      (keysOf acc).Nodup →
      (keysOf
        (l.foldl (fun acc t => addToCategory acc t.category t.amount)
          acc)).Nodup := by
    intro l
    induction l with
    | nil => intro acc h; exact h
    | cons t rest ih =>
      intro acc h
      exact ih _ (nodup_keysOf_addToCategory acc t.category t.amount h)
  exact h txs [] (by simp [keysOf])

/-- C1: for every collection of transactions, the sum of the per-category
totals produced by the byCategory reduce equals the sum of all
transaction amounts, and the mapping's keys are exactly the categories
appearing at least once in the collection. -/
theorem byCategory_partitions_sum (txs : List Transaction) :
    sumValues (byCategory txs) = sumAmounts txs ∧
    ∀ c, c ∈ keysOf (byCategory txs) ↔ ∃ t ∈ txs, t.category = c := by
  constructor
  · have h := sumValues_fold txs [] (by simp [keysOf])
    simpa [byCategory, sumValues] using h
  · intro c
    have h := mem_keysOf_fold txs [] c
    simpa [byCategory, keysOf] using h

/-- C9: the summary-state update performed by processTransactionData is
deterministic and idempotent: for a fixed current date, applying it a
second time to the state it just produced changes nothing, so two runs
on the same snapshot yield identical results. -/
theorem dashboardStep_idempotent (today : ℤ) (txs : List Transaction)
    (td : Option TrendsData) (s : SummaryData) :
    dashboardStep today txs td (dashboardStep today txs td s)
      = dashboardStep today txs td s := by
  cases h : processTransactionData today txs td with
  | none => simp [dashboardStep, h]
  | some v => simp [dashboardStep, h]

/-- The trailing-7-day window in chronological order: the six days before
today followed by today. -/
lemma last7Days_eq (today : ℤ) :
    last7Days today = [today - 6, today - 5, today - 4, today - 3,
      today - 2, today - 1, today] := by
  simp [last7Days, List.range_succ]

/-- A day of the window never lies after today. -/
lemma mem_last7Days_le (today d : ℤ) (hd : d ∈ last7Days today) :
    d ≤ today := by
  rw [last7Days_eq] at hd
  fin_cases hd <;> omega

/-- A day with no transaction on it has day total zero. -/
lemma dayTotal_eq_zero (txs : List Transaction) (d : ℤ)
    (h : ∀ t ∈ txs, t.date ≠ d) : dayTotal txs d = 0 := by
  have hfil : txs.filter (fun t => t.date = d) = [] := by
    rw [List.filter_eq_nil_iff]
    intro t ht
    simpa using h t ht
  simp [dayTotal, hfil]

/-- C2 (amended): for every NON-EMPTY transaction collection, when no API
trend data is supplied, processTransactionData produces the byCategory
mapping together with the locally computed trend; that trend has exactly
7 entries whose dates are the 7 most recent calendar days ending today in
chronological order (so consecutive dates differ by exactly one day), and
its amount is 0 on every day carrying no transaction.  The part_002
variant produces the same trend for every collection, the empty one
included.  (As originally stated, over every collection, the claim fails:
on the empty collection Dashboard.js returns early and produces no
7-entry trend; see the counterexample.) -/
theorem recentTrends_seven_days (today : ℤ) (txs : List Transaction)
    (h : txs ≠ []) :
    processTransactionData today txs none
      = some (byCategory txs, recentTrends today txs) ∧
    (recentTrends today txs).length = 7 ∧
    (recentTrends today txs).map Prod.fst
      = [today - 6, today - 5, today - 4, today - 3, today - 2,
          today - 1, today] ∧
    (∀ p ∈ recentTrends today txs,
      (∀ t ∈ txs, t.date ≠ p.1) → p.2 = 0) ∧
    (∀ txs2 : List Transaction,
      (processTransactionDataV0 today txs2).2 = recentTrends today txs2) := by
  refine ⟨?_, ?_, ?_, ?_, fun txs2 => rfl⟩
  · cases txs with
    | nil => exact absurd rfl h
    | cons a l => rfl
  · rw [recentTrends, last7Days_eq]
    rfl
  · rw [recentTrends, List.map_map]
    have : (Prod.fst ∘ fun d => (d, dayTotal txs d)) = fun d : ℤ => d := by
      funext d
      rfl
    rw [this]
    simpa using last7Days_eq today
  · intro p hp hnone
    rcases List.mem_map.mp hp with ⟨d, _, rfl⟩
    exact dayTotal_eq_zero txs d hnone

/-- C2 counterexample: on the empty collection Dashboard.js's
processTransactionData takes the early return and produces no trend at
all, hence no 7-entry trend, contradicting the claim read over every
collection. -/
theorem recentTrends_claim_fails_on_empty :
    ¬ ∃ bc tr, processTransactionData 19000 ([] : List Transaction) none
        = some (bc, tr) ∧ tr.length = 7 := by
  rintro ⟨bc, tr, habs, -⟩
  exact Option.noConfusion habs

/-- C2 witness: a concrete one-transaction collection is non-empty and
its locally computed trend has exactly 7 entries. -/
theorem recentTrends_seven_days_witness :
    ([⟨"Groceries", 100, 20000, "milk"⟩] : List Transaction) ≠ [] ∧
    (recentTrends 20000
      [(⟨"Groceries", 100, 20000, "milk"⟩ : Transaction)]).length = 7 :=
  ⟨by decide,
    (recentTrends_seven_days 20000 [⟨"Groceries", 100, 20000, "milk"⟩]
      (by decide)).2.1⟩

/-- C3 (amended): on the empty collection, Dashboard.js's
processTransactionData produces no aggregation output at all (the early
return leaves the previously rendered summary in place), while the
part_002 variant yields the empty category mapping together with a
7-entry trend whose amounts are all 0. -/
theorem empty_collection_aggregation (today : ℤ) :
    processTransactionData today [] none = none ∧
    processTransactionDataV0 today []
      = ([], [(today - 6, 0), (today - 5, 0), (today - 4, 0),
          (today - 3, 0), (today - 2, 0), (today - 1, 0), (today, 0)]) := by
  refine ⟨rfl, ?_⟩
  unfold processTransactionDataV0 byCategory recentTrends
  rw [last7Days_eq]
  simp [dayTotal]

/-- C3 counterexample: at a concrete date, Dashboard.js's
processTransactionData applied to the empty collection returns none
instead of an empty mapping paired with a 7-entry all-zero trend. -/
theorem empty_collection_claim_fails :
    processTransactionData 20000 ([] : List Transaction) none = none := rfl

/-- C8: a transaction dated strictly after today has its amount added to
its category's total in the byCategory mapping, but changes no entry of
the locally computed 7-day trend. -/
theorem future_transaction_counted_not_trended (today : ℤ)
    (t : Transaction) (txs : List Transaction) (h : today < t.date) :
    lookupTotal (byCategory (t :: txs)) t.category
      = t.amount + lookupTotal (byCategory txs) t.category ∧
    recentTrends today (t :: txs) = recentTrends today txs := by
  constructor
  · have h1 := lookupTotal_fold txs (addToCategory [] t.category t.amount)
      (nodup_keysOf_addToCategory [] t.category t.amount (by simp [keysOf]))
      t.category
    have h2 := lookupTotal_fold txs [] (by simp [keysOf]) t.category
    unfold byCategory
    rw [List.foldl_cons, h1]
    unfold byCategory at h2
    rw [h2]
    simp [addToCategory, lookupTotal]
  · unfold recentTrends
    refine List.map_congr_left ?_
    intro d hd
    have hdle : d ≤ today := mem_last7Days_le today d hd
    have hne : ¬ t.date = d := by omega
    simp [dayTotal, List.filter_cons, hne]

/-- C8 witness: a transaction dated one day after a concrete today is
excluded from every trend entry while its category total gains its
amount. -/
theorem future_transaction_witness :
    (100 : ℤ) < 101 ∧
    recentTrends 100 [(⟨"Groceries", 5, 101, "future"⟩ : Transaction)]
      = recentTrends 100 [] :=
  ⟨by decide,
    (future_transaction_counted_not_trended 100
      ⟨"Groceries", 5, 101, "future"⟩ [] (by decide)).2⟩

/-- The average-transaction figure of the Dashboard summary card
(Dashboard.js lines 243-246): total spending divided by the transaction
count, with the count replaced by 1 when it is 0 (the JS expression
transactions.length || 1). -/
def averageTransaction (txs : List Transaction) : ℚ :=
  sumAmounts txs / (if txs.length = 0 then 1 else (txs.length : ℚ))

/-- C10: the average-transaction divisor is never zero, the figure equals
total spending divided by max(count, 1), and the empty list yields an
average of 0. -/
theorem averageTransaction_guarded (txs : List Transaction) :
    (if txs.length = 0 then (1 : ℚ) else (txs.length : ℚ)) ≠ 0 ∧
    averageTransaction txs = sumAmounts txs / ((max txs.length 1 : ℕ) : ℚ) ∧
    averageTransaction [] = 0 := by
  refine ⟨?_, ?_, by norm_num [averageTransaction, sumAmounts]⟩
  · by_cases h : txs.length = 0 <;> simp [h]
  · by_cases h : txs.length = 0
    · simp [averageTransaction, h]
    · have hmax : max txs.length 1 = txs.length := by omega
      simp [averageTransaction, h, hmax]

/-- The retry loop of fetchWithRetry (Dashboard.js lines 45-70, repeated
in SavingsPrediction.js lines 38-63).  The attempt outcomes are supplied
as a function from the attempt index (the value of the retries counter
when the attempt is made) to an Except; the returned list records the
milliseconds slept between attempts (1000 * retries after the counter is
incremented).  The outer Option models the JS while loop falling through
without a return (only possible when maxRetries is 0). -/
def retryLoop {E R : Type} (outcome : ℕ → Except E R) (maxRetries : ℕ) :
    ℕ → ℕ → List ℕ → Option (Except E R × List ℕ)
  | _, 0, _ => none
  | retries, fuel + 1, delays =>
    if retries < maxRetries then
      match outcome retries with
      | Except.ok r => some (Except.ok r, delays)
      | Except.error e =>
        if retries + 1 = maxRetries then some (Except.error e, delays)
        else
          retryLoop outcome maxRetries (retries + 1) fuel
            (delays ++ [1000 * (retries + 1)])
    else none

/-- fetchWithRetry: run the retry loop from a zero retries counter.  The
fuel equals maxRetries, which bounds the number of loop iterations. -/
def fetchWithRetry {E R : Type} (outcome : ℕ → Except E R)
    (maxRetries : ℕ) : Option (Except E R × List ℕ) :=
  retryLoop outcome maxRetries 0 maxRetries []

/-- C5: with the default of 3 attempts, if the first k attempts fail and
attempt k succeeds (k < 3), the successful response is returned after
sleeping 1000 * n milliseconds following the n-th failure; if all 3
attempts fail, the error of the final attempt is propagated after the
two intermediate delays of 1 and 2 seconds.  No attempt beyond the
third is ever made. -/
theorem fetchWithRetry_policy {E R : Type} (outcome : ℕ → Except E R)
    (k : ℕ) (hk : k ≤ 3)
    (hfail : ∀ j, j < k → (outcome j).isOk = false)
    (hsucc : k < 3 → (outcome k).isOk = true) :
    fetchWithRetry outcome 3
      = if k < 3 then
          some (outcome k, (List.range k).map (fun n => 1000 * (n + 1)))
        else some (outcome 2, [1000, 2000]) := by
  interval_cases k
  · cases ho : outcome 0 with
    | error e =>
      have := hsucc (by norm_num)
      rw [ho] at this
      simp [Except.isOk, Except.toBool] at this
    | ok r => simp [fetchWithRetry, retryLoop, ho]
  · cases h0 : outcome 0 with
    | ok r =>
      have := hfail 0 (by norm_num)
      rw [h0] at this
      simp [Except.isOk, Except.toBool] at this
    | error e0 =>
      cases h1 : outcome 1 with
      | error e =>
        have := hsucc (by norm_num)
        rw [h1] at this
        simp [Except.isOk, Except.toBool] at this
      | ok r => simp [fetchWithRetry, retryLoop, h0, h1, List.range_succ]
  · cases h0 : outcome 0 with
    | ok r =>
      have := hfail 0 (by norm_num)
      rw [h0] at this
      simp [Except.isOk, Except.toBool] at this
    | error e0 =>
      cases h1 : outcome 1 with
      | ok r =>
        have := hfail 1 (by norm_num)
        rw [h1] at this
        simp [Except.isOk, Except.toBool] at this
      | error e1 =>
        cases h2 : outcome 2 with
        | error e =>
          have := hsucc (by norm_num)
          rw [h2] at this
          simp [Except.isOk, Except.toBool] at this
        | ok r =>
          simp [fetchWithRetry, retryLoop, h0, h1, h2, List.range_succ]
  · cases h0 : outcome 0 with
    | ok r =>
      have := hfail 0 (by norm_num)
      rw [h0] at this
      simp [Except.isOk, Except.toBool] at this
    | error e0 =>
      cases h1 : outcome 1 with
      | ok r =>
        have := hfail 1 (by norm_num)
        rw [h1] at this
        simp [Except.isOk, Except.toBool] at this
      | error e1 =>
        cases h2 : outcome 2 with
        | ok r =>
          have := hfail 2 (by norm_num)
          rw [h2] at this
          simp [Except.isOk, Except.toBool] at this
        | error e2 =>
          simp [fetchWithRetry, retryLoop, h0, h1, h2]

/-- C5 witness: when every attempt fails with a concrete error, the
third attempt's error is propagated after delays of 1000 and 2000
milliseconds. -/
theorem fetchWithRetry_policy_witness :
    fetchWithRetry (fun _ => (Except.error 7 : Except ℕ ℕ)) 3
      = some (Except.error 7, [1000, 2000]) := by
  have h := fetchWithRetry_policy (fun _ => (Except.error 7 : Except ℕ ℕ))
    3 (by norm_num) (fun j _ => rfl) (by decide)
  simpa using h

/-- The profile form state of UserProfile.js.  An empty numeric field is
none; occupation is the selected string, empty when unselected.  JS
falsiness makes both the empty field and the number 0 fail the
required-fields check. -/
structure ProfileForm where
  age : Option ℤ
  dependents : Option ℤ
  occupation : String
deriving Repr, DecidableEq

/-- The validation sequence of handleSubmit (UserProfile.js lines 66-77):
required fields (JS truthiness of age and occupation), then the age
range, then non-negative dependents (an empty dependents field coerces
to 0 in the JS comparison and passes). -/
def validateProfile (f : ProfileForm) : Except String Unit :=
  if f.age = none ∨ f.age = some 0 ∨ f.occupation = "" then
    Except.error "Please fill in all required fields"
  else if f.age.getD 0 < 18 ∨ 100 < f.age.getD 0 then
    Except.error "Age must be between 18 and 100"
  else if f.dependents.getD 0 < 0 then
    Except.error "Number of dependents cannot be negative"
  else Except.ok ()

/-- Modelled from the spec: the Profile Store upsert (the Flask backend
and its storage are not under src/); section 4.4 gives upsert keyed by
user id, reads reflecting prior writes. -/
def upsertProfile (store : List (String × ProfileForm)) (uid : String)
    (f : ProfileForm) : List (String × ProfileForm) :=
  (store.filter (fun p => ¬ p.1 = uid)) ++ [(uid, f)]

/-- handleSubmit (UserProfile.js lines 60-99) acting on the store of
profile records: the POST to /api/profile is issued only after every
validation passes; a thrown validation error is caught and shown, and no
request reaches the store. -/
def handleSubmit (f : ProfileForm) (uid : String)
    (store : List (String × ProfileForm)) :
    List (String × ProfileForm) × Option String :=
  match validateProfile f with
  | Except.error e => (store, some e)
  | Except.ok _ => (upsertProfile store uid f, none)

/-- C6: a profile submission with age outside 18..100 (age 15 for
example), negative dependents, or a missing occupation is rejected with
a validation error, and the profile store is left unchanged. -/
theorem invalid_profile_not_stored (f : ProfileForm) (uid : String)
    (store : List (String × ProfileForm))
    (h : (∃ a, f.age = some a ∧ (a < 18 ∨ 100 < a)) ∨
         (∃ d, f.dependents = some d ∧ d < 0) ∨
         f.occupation = "") :
    (handleSubmit f uid store).1 = store ∧
    ((handleSubmit f uid store).2).isSome = true := by
  have hval : ∃ e, validateProfile f = Except.error e := by
    unfold validateProfile
    split
    · exact ⟨_, rfl⟩
    · next h1 =>
      push_neg at h1
      split
      · exact ⟨_, rfl⟩
      · next h2 =>
        push_neg at h2
        split
        · exact ⟨_, rfl⟩
        · next h3 =>
          exfalso
          rcases h with ⟨a, ha, har⟩ | ⟨d, hd, hdneg⟩ | hocc
          · rw [ha] at h2
            simp at h2
            omega
          · rw [hd] at h3
            simp at h3
            omega
          · exact h1.2.2 hocc
  rcases hval with ⟨e, he⟩
  simp [handleSubmit, he]

/-- C6 witness: submitting age 15 against an empty store is rejected and
stores nothing. -/
theorem invalid_profile_witness :
    (handleSubmit ⟨some 15, some 0, "Salaried"⟩ "user123" []).1 = [] ∧
    ((handleSubmit ⟨some 15, some 0, "Salaried"⟩ "user123" []).2).isSome
      = true :=
  invalid_profile_not_stored ⟨some 15, some 0, "Salaried"⟩ "user123" []
    (Or.inl ⟨15, rfl, Or.inl (by norm_num)⟩)

/-- Modelled from the spec: the backend Prediction Engine (the Flask
backend is not under src/).  Section 4.2 gives a configurable mapping
category to rate in the unit interval, with a default baseline rate of
0.10 for categories absent from the configuration. -/
def categoryRate (rates : List (String × ℚ)) (c : String) : ℚ :=
  match rates.find? (fun p => p.1 = c) with
  | some p => p.2
  | none => 1 / 10

/-- The triple reported per category and for the totals. -/
structure CategoryPrediction where
  actual_expense : ℚ
  potential_savings : ℚ
  savings_percentage : ℚ
deriving Repr, DecidableEq

/-- Modelled from the spec: the zero-guarded percentage, 0 when the
actual expense is 0 and 100 * savings / expense otherwise. -/
def savingsPercentage (e p : ℚ) : ℚ :=
  if e = 0 then 0 else 100 * p / e

/-- Modelled from the spec: one category's prediction multiplies the
actual expense by its configured rate. -/
def predictCategory (rates : List (String × ℚ)) (c : String) (e : ℚ) :
    CategoryPrediction :=
  ⟨e, e * categoryRate rates c, savingsPercentage e (e * categoryRate rates c)⟩

/-- Modelled from the spec: the full prediction over an aggregated
category mapping, with totals summing the per-category expenses and
savings and using the same zero-guarded percentage. -/
def predict (rates agg : List (String × ℚ)) :
    List (String × CategoryPrediction) × CategoryPrediction :=
  let preds := agg.map (fun x => (x.1, predictCategory rates x.1 x.2))
  let te := (preds.map (fun x => x.2.actual_expense)).sum
  let tp := (preds.map (fun x => x.2.potential_savings)).sum
  (preds, ⟨te, tp, savingsPercentage te tp⟩)

/-- A configured rate table with rates in the unit interval always
yields a rate in the unit interval (the default 0.10 included). -/
lemma categoryRate_mem (rates : List (String × ℚ)) (c : String)
    (hr : ∀ r ∈ rates, 0 ≤ r.2 ∧ r.2 ≤ 1) :
    0 ≤ categoryRate rates c ∧ categoryRate rates c ≤ 1 := by
  unfold categoryRate
  cases hf : rates.find? (fun p => p.1 = c) with
  | none => norm_num
  | some p => exact hr p (List.mem_of_find?_eq_some hf)

/-- C4: with every configured rate in the unit interval and every
aggregated expense non-negative, each per-category prediction satisfies
0 <= potential_savings <= actual_expense with the zero-guarded
percentage, and the totals satisfy the same bounds and guarded rule. -/
theorem prediction_savings_bounds (rates agg : List (String × ℚ))
    (hr : ∀ r ∈ rates, 0 ≤ r.2 ∧ r.2 ≤ 1)
    (he : ∀ x ∈ agg, 0 ≤ x.2) :
    (∀ q ∈ (predict rates agg).1,
      0 ≤ q.2.potential_savings ∧
      q.2.potential_savings ≤ q.2.actual_expense ∧
      q.2.savings_percentage =
        (if q.2.actual_expense = 0 then 0
         else 100 * q.2.potential_savings / q.2.actual_expense)) ∧
    0 ≤ (predict rates agg).2.potential_savings ∧
    (predict rates agg).2.potential_savings
      ≤ (predict rates agg).2.actual_expense ∧
    (predict rates agg).2.savings_percentage =
      (if (predict rates agg).2.actual_expense = 0 then 0
       else 100 * (predict rates agg).2.potential_savings
              / (predict rates agg).2.actual_expense) := by
  refine ⟨?_, ?_, ?_, ?_⟩
  · intro q hq
    rcases List.mem_map.mp hq with ⟨x, hx, rfl⟩
    have hx2 := he x hx
    have hrate := categoryRate_mem rates x.1 hr
    refine ⟨mul_nonneg hx2 hrate.1, ?_, rfl⟩
    calc x.2 * categoryRate rates x.1 ≤ x.2 * 1 :=
          mul_le_mul_of_nonneg_left hrate.2 hx2
      _ = x.2 := mul_one x.2
  · show (0 : ℚ) ≤ ((agg.map (fun x => (x.1, predictCategory rates x.1 x.2))).map
      (fun x => x.2.potential_savings)).sum
    rw [List.map_map]
    refine List.sum_nonneg ?_
    intro q hq
    rcases List.mem_map.mp hq with ⟨x, hx, rfl⟩
    exact mul_nonneg (he x hx) (categoryRate_mem rates x.1 hr).1
  · show ((agg.map (fun x => (x.1, predictCategory rates x.1 x.2))).map
        (fun x => x.2.potential_savings)).sum
      ≤ ((agg.map (fun x => (x.1, predictCategory rates x.1 x.2))).map
        (fun x => x.2.actual_expense)).sum
    rw [List.map_map, List.map_map]
    refine List.sum_le_sum ?_
    intro x hx
    show x.2 * categoryRate rates x.1 ≤ x.2
    calc x.2 * categoryRate rates x.1 ≤ x.2 * 1 :=
          mul_le_mul_of_nonneg_left (categoryRate_mem rates x.1 hr).2
            (he x hx)
      _ = x.2 := mul_one x.2
  · rfl

/-- C4 witness: the spec scenario of a single Groceries category with
expense 150 and a configured rate of 0.20. -/
theorem prediction_savings_bounds_witness :
    (∀ r ∈ [(("Groceries" : String), (1 / 5 : ℚ))], 0 ≤ r.2 ∧ r.2 ≤ 1) ∧
    (∀ x ∈ [(("Groceries" : String), (150 : ℚ))], 0 ≤ x.2) ∧
    0 ≤ (predict [("Groceries", 1 / 5)]
          [("Groceries", 150)]).2.potential_savings :=
  ⟨by norm_num, by norm_num,
    (prediction_savings_bounds [("Groceries", 1 / 5)] [("Groceries", 150)]
      (by norm_num) (by norm_num)).2.1⟩

/-- Whitespace tokenizer used by the modelled parser: split a character
list at whitespace, dropping empty pieces. -/
def splitWs : List Char → List Char → List (List Char)
  | [], [] => []
  | [], cur => [cur.reverse]
  | c :: rest, cur =>
    if c.isWhitespace then
      if cur = [] then splitWs rest []
      else cur.reverse :: splitWs rest []
    else splitWs rest (c :: cur)

/-- The whitespace-separated tokens of a string. -/
def tokens (text : String) : List String :=
  (splitWs text.toList []).map (fun cs => String.mk cs)

/-- The value of a decimal digit character. -/
def digitVal (c : Char) : ℕ := c.toNat - 48

/-- Leading-digit run of a token, read as a number; none when the token
does not start with a digit.  A trailing unit such as rs is ignored, per
the spec shape amount-then-optional-unit. -/
def numericValue (s : String) : Option ℕ :=
  match s.toList.takeWhile (fun c => c.isDigit) with
  | [] => none
  | ds => some (ds.foldl (fun n c => 10 * n + digitVal c) 0)

/-- Modelled from the spec: the fixed keyword-to-category lookup of the
backend quick-entry parser (the Flask backend is not under src/).
Section 4.3 and the section 8 scenarios give food mapping to Eating_Out
and medical to Healthcare; the rest covers the fixed category set. -/
def keywordMap : List (String × String) :=
  [("food", "Eating_Out"), ("grocery", "Groceries"),
   ("groceries", "Groceries"), ("transport", "Transport"),
   ("travel", "Transport"), ("movie", "Entertainment"),
   ("entertainment", "Entertainment"), ("electricity", "Utilities"),
   ("utilities", "Utilities"), ("medical", "Healthcare"),
   ("doctor", "Healthcare"), ("education", "Education"),
   ("books", "Education"), ("misc", "Miscellaneous")]

/-- Category for one token, when the token is a recognized keyword. -/
def keywordCategory (s : String) : Option String :=
  match keywordMap.find? (fun p => p.1 = s) with
  | some p => some p.2
  | none => none

/-- The parse result shape returned by /api/parse-transaction. -/
structure ParsedTransaction where
  description : String
  amount : ℕ
  category : String
deriving Repr, DecidableEq

/-- Modelled from the spec: the backend quick-entry parser (the Flask
backend is not under src/).  Section 4.3: extract description, numeric
amount and a category from keyword lookup; fail with a ParseError when
the string is empty or whitespace-only, when no numeric token is found,
or when no recognized category keyword is found.  Tie-breaks follow the
rule the spec offers for documentation: first numeric token wins, last
recognized keyword wins; the description is the token run before the
first numeric token. -/
def parseTransaction (text : String) : Except String ParsedTransaction :=
  let ts := tokens text
  if ts = [] then Except.error "ParseError: empty or whitespace-only input"
  else
    match ts.findSome? numericValue, ts.reverse.findSome? keywordCategory with
    | some a, some c =>
      Except.ok
        ⟨String.intercalate " "
            (ts.takeWhile (fun s => (numericValue s).isNone)), a, c⟩
    | none, _ => Except.error "ParseError: no numeric token found"
    | some _, none =>
      Except.error "ParseError: no recognized category keyword"

/-- The transaction form state populated by the quick-entry caller. -/
structure TxFormState where
  category : String
  amount : Option ℕ
  description : String
  date : ℤ
deriving Repr, DecidableEq

/-- The parseTransactionText caller (TransactionForm.js lines 82-102):
a blank quick input is ignored (line 83); otherwise the text goes to the
parse endpoint; on success the form fields are populated, on failure an
error message is shown and the form is left untouched so the user falls
back to manual entry. -/
def parseTransactionText (quickInput : String) (form : TxFormState) :
    TxFormState × Option String :=
  if quickInput.toList.all (fun c => c.isWhitespace) then (form, none)
  else
    match parseTransaction quickInput with
    | Except.ok r =>
      ({ form with
          description := r.description,
          amount := some r.amount,
          category := r.category }, none)
    | Except.error _ =>
      (form,
        some "Could not parse transaction. Please use format: Item amount category")

/-- C7: the quick-entry parse fails with a ParseError on an
empty-or-whitespace-only input (no tokens), when no token is numeric, or
when no token is a recognized category keyword; and whenever the parse
does not succeed the caller leaves the form unchanged, falling back to
manual entry instead of failing fatally. -/
theorem parseTransaction_failure_modes (text : String) :
    (tokens text = [] → ∃ e, parseTransaction text = Except.error e) ∧
    ((∀ s ∈ tokens text, numericValue s = none) →
      ∃ e, parseTransaction text = Except.error e) ∧
    ((∀ s ∈ tokens text, keywordCategory s = none) →
      ∃ e, parseTransaction text = Except.error e) ∧
    (∀ form : TxFormState,
      (∀ r, parseTransaction text ≠ Except.ok r) →
      (parseTransactionText text form).1 = form) := by
  refine ⟨?_, ?_, ?_, ?_⟩
  · intro h
    refine ⟨"ParseError: empty or whitespace-only input", ?_⟩
    simp [parseTransaction, h]
  · intro h
    by_cases hts : tokens text = []
    · refine ⟨"ParseError: empty or whitespace-only input", ?_⟩
      simp [parseTransaction, hts]
    · have hnum : (tokens text).findSome? numericValue = none :=
        List.findSome?_eq_none_iff.mpr h
      refine ⟨"ParseError: no numeric token found", ?_⟩
      simp [parseTransaction, hts, hnum]
  · intro h
    by_cases hts : tokens text = []
    · refine ⟨"ParseError: empty or whitespace-only input", ?_⟩
      simp [parseTransaction, hts]
    · have hkw : (tokens text).reverse.findSome? keywordCategory = none := by
        refine List.findSome?_eq_none_iff.mpr ?_
        intro s hs
        exact h s (List.mem_reverse.mp hs)
      cases hnum : (tokens text).findSome? numericValue with
      | none =>
        refine ⟨"ParseError: no numeric token found", ?_⟩
        simp [parseTransaction, hts, hnum]
      | some a =>
        refine ⟨"ParseError: no recognized category keyword", ?_⟩
        simp [parseTransaction, hts, hnum, hkw]
  · intro form hfail
    unfold parseTransactionText
    split
    · rfl
    · cases hp : parseTransaction text with
      | ok r => exact absurd hp (hfail r)
      | error e => rfl

/-- C7 witness: a whitespace-only input tokenizes to nothing, the parse
rejects it, and the caller leaves a concrete form untouched. -/
theorem parseTransaction_failure_witness :
    tokens "   " = [] ∧
    (∃ e, parseTransaction "   " = Except.error e) ∧
    (parseTransactionText "   " ⟨"", none, "", 0⟩).1 = ⟨"", none, "", 0⟩ :=
  ⟨by decide,
    (parseTransaction_failure_modes "   ").1 (by decide),
    (parseTransaction_failure_modes "   ").2.2.2 ⟨"", none, "", 0⟩
      (by
        intro r hr
        rw [show parseTransaction "   "
            = Except.error "ParseError: empty or whitespace-only input"
          from rfl] at hr
        exact Except.noConfusion hr)⟩

end Fortuna




